import Mathlib

/-!
Shallow embedding of the `sray` ray-tracer core (src/math.rs, src/color.rs,
src/canvas.rs, src/misc.rs) and proofs about its specification.

The `Sray` namespace models `f64` by an exact-value type `Sray.F64`:
`nan`, the two infinities, or a finite value carried as a rational.
Finite arithmetic is exact (rounding, overflow to infinity and the sign of
zero are abstracted away); the IEEE-754 rules for `nan` and the infinities
are kept, since several specified behaviours hinge on them.

The `SrayExact` namespace repeats the vector-algebra definitions over an
arbitrary linearly ordered field together with an explicit square-root
function, for the one property (unit magnitude of a normalized vector)
whose truth depends on what `f64::sqrt` actually computes.
-/

namespace Sray

/-- Model of an IEEE-754 `f64` value: `nan`, one of the two infinities, or a
finite value carried exactly as a rational.  Finite arithmetic is exact. -/
inductive F64 where
  | nan : F64
  | inf : F64
  | ninf : F64
  | fin (q : ℚ) : F64
deriving DecidableEq

/-- IEEE-754 addition on the model (exact in the finite case). -/
def F64.add : F64 → F64 → F64
  | nan, _ => nan
  | _, nan => nan
  | inf, ninf => nan
  | ninf, inf => nan
  | inf, _ => inf
  | _, inf => inf
  | ninf, _ => ninf
  | _, ninf => ninf
  | fin a, fin b => fin (a + b)

/-- IEEE-754 negation on the model. -/
def F64.neg : F64 → F64
  | nan => nan
  | inf => ninf
  | ninf => inf
  | fin q => fin (-q)

/-- IEEE-754 subtraction; `a - b` agrees with `a + (-b)` on every `f64`. -/
def F64.sub (a b : F64) : F64 := a.add b.neg

/-- IEEE-754 multiplication on the model (exact in the finite case);
`0 * ±∞` and `nan * _` are `nan`. -/
def F64.mul : F64 → F64 → F64
  | nan, _ => nan
  | _, nan => nan
  | inf, inf => inf
  | inf, ninf => ninf
  | ninf, inf => ninf
  | ninf, ninf => inf
  | inf, fin q => if q = 0 then nan else if 0 < q then inf else ninf
  | fin q, inf => if q = 0 then nan else if 0 < q then inf else ninf
  | ninf, fin q => if q = 0 then nan else if 0 < q then ninf else inf
  | fin q, ninf => if q = 0 then nan else if 0 < q then ninf else inf
  | fin a, fin b => fin (a * b)

/-- IEEE-754 division on the model (exact in the finite case); `0/0`,
`nan/_`, `_/nan` and `±∞/±∞` are `nan`, a nonzero finite value divided by
zero is a signed infinity (the model only has `+0`). -/
def F64.div : F64 → F64 → F64
  | nan, _ => nan
  | _, nan => nan
  | inf, inf => nan
  | inf, ninf => nan
  | ninf, inf => nan
  | ninf, ninf => nan
  | inf, fin q => if 0 ≤ q then inf else ninf
  | ninf, fin q => if 0 ≤ q then ninf else inf
  | fin _, inf => fin 0
  | fin _, ninf => fin 0
  | fin a, fin b =>
      if b = 0 then
        if a = 0 then nan else if 0 < a then inf else ninf
      else fin (a / b)

/-- IEEE-754 absolute value on the model. -/
def F64.abs : F64 → F64
  | nan => nan
  | inf => inf
  | ninf => inf
  | fin q => fin |q|

/-- IEEE-754 strict comparison `<` on the model: any comparison with `nan`
is `false`. -/
def F64.lt : F64 → F64 → Bool
  | nan, _ => false
  | _, nan => false
  | inf, _ => false
  | _, inf => true
  | ninf, ninf => false
  | ninf, _ => true
  | _, ninf => false
  | fin a, fin b => decide (a < b)

/-- The fixed comparison tolerance `EPSILON = 1e-10` of `misc.rs` /
`math.rs` (the nearest double to `1e-10` is identified with `10⁻¹⁰`). -/
def EPSILON : F64 := F64.fin (1 / 10 ^ 10)

/-- `equal` from `misc.rs` / `math.rs`: `(lhs - rhs).abs() < EPSILON`. -/
def equal (lhs rhs : F64) : Bool := ((lhs.sub rhs).abs).lt EPSILON

/-- `Color` from `color.rs`: three `f64` channels `r`, `g`, `b`. -/
structure Color where
  r : F64
  g : F64
  b : F64
deriving DecidableEq

/-- `Color::new` from `color.rs`. -/
def Color.new (r g b : F64) : Color := ⟨r, g, b⟩

/-- `Color::BLACK` from the `DefaultColors` trait in `color.rs`. -/
def Color.BLACK : Color := ⟨F64.fin 0, F64.fin 0, F64.fin 0⟩

/-- `Canvas` from `canvas.rs`: a flat row-major buffer of colors plus the
`width` and `height`. -/
structure Canvas where
  canvas : List Color
  width : ℕ
  height : ℕ
deriving DecidableEq

/-- `Canvas::new` from `canvas.rs`: a `width * height` buffer of black. -/
def Canvas.new (width height : ℕ) : Canvas :=
  ⟨List.replicate (width * height) Color.BLACK, width, height⟩

/-- Well-formedness invariant of every reachable canvas: the buffer holds
exactly `width * height` colors. -/
def Canvas.WF (c : Canvas) : Prop := c.canvas.length = c.width * c.height

/-- `Canvas::pixel_at` from `canvas.rs`: the stored color at buffer index
`x + y * width` when both coordinates are in bounds, `None` otherwise. -/
def Canvas.pixel_at (c : Canvas) (x y : ℕ) : Option Color :=
  if x < c.width ∧ y < c.height then c.canvas[x + y * c.width]? else none

/-- `Canvas::write_pixel` from `canvas.rs`: overwrite buffer index
`x + y * width` when both coordinates are in bounds, otherwise do nothing. -/
def Canvas.write_pixel (c : Canvas) (x y : ℕ) (color : Color) : Canvas :=
  if x < c.width ∧ y < c.height then
    { c with canvas := c.canvas.set (x + y * c.width) color }
  else c

/-- Rust's saturating `f64`-to-`u32` cast (applied in `to_ppm` after the
ceiling, so the finite input is integral): `nan` and negative values give
`0`, values above `u32::MAX` give `u32::MAX`, otherwise truncate. -/
def F64.toU32 : F64 → ℕ
  | nan => 0
  | inf => 2 ^ 32 - 1
  | ninf => 0
  | fin q => if q < 0 then 0 else min (2 ^ 32 - 1) (⌊q⌋.toNat)

/-- `f64::ceil` on the model. -/
def F64.ceil : F64 → F64
  | nan => nan
  | inf => inf
  | ninf => ninf
  | fin q => fin ((⌈q⌉ : ℤ) : ℚ)

/-- One serialized channel of `Canvas::to_ppm`:
`((v * 255.0).ceil() as u32).clamp(0, 255)` (on `ℕ` the lower clamp bound
`0` is vacuous). -/
def ppmChannel (v : F64) : ℕ :=
  min 255 ((v.mul (F64.fin 255)).ceil.toU32)

/-- The three integers `to_ppm` emits for one pixel. -/
def tripletStr (color : Color) : String :=
  toString (ppmChannel color.r) ++ " " ++ toString (ppmChannel color.g) ++
    " " ++ toString (ppmChannel color.b)

/-- `Canvas::to_ppm` from `canvas.rs`: the `P3` header, then the pixel
triplets with a newline before every fifth pixel (a space otherwise), then a
trailing newline. -/
def Canvas.to_ppm (c : Canvas) : String :=
  let header := "P3\n" ++ toString c.width ++ " " ++ toString c.height ++
    "\n" ++ "255"
  let body := c.canvas.enum.foldl
    (fun acc p => acc ++ (if p.1 % 5 = 0 then "\n" else " ") ++ tripletStr p.2)
    header
  body ++ "\n"

/-- The integer tokens of the `to_ppm` body, in emission order: `to_ppm`
prints, for each buffer pixel in order, exactly
`ppmChannel r`, `ppmChannel g`, `ppmChannel b` (see `tripletStr`). -/
def Canvas.bodyInts (c : Canvas) : List ℕ :=
  c.canvas.flatMap fun col => [ppmChannel col.r, ppmChannel col.g, ppmChannel col.b]

/-- The spec's serialization formula for one finite channel value `q`
(stated from the spec's words, for comparison with `ppmChannel`): multiply
by 255, round up to the nearest integer, clamp into `[0, 255]`. -/
def specChannel (q : ℚ) : ℕ := (min 255 (max 0 ⌈q * 255⌉)).toNat

/-- `Tuple4` from `math.rs`: the shared homogeneous 4-tuple of `f64`. -/
structure Tuple4 where
  x : F64
  y : F64
  z : F64
  w : F64
deriving DecidableEq

/-- `impl Add for Tuple4`: component-wise addition. -/
def Tuple4.add (a b : Tuple4) : Tuple4 :=
  ⟨a.x.add b.x, a.y.add b.y, a.z.add b.z, a.w.add b.w⟩

/-- `impl Sub for Tuple4`: component-wise subtraction. -/
def Tuple4.sub (a b : Tuple4) : Tuple4 :=
  ⟨a.x.sub b.x, a.y.sub b.y, a.z.sub b.z, a.w.sub b.w⟩

/-- `impl Neg for Tuple4`: component-wise negation. -/
def Tuple4.neg (a : Tuple4) : Tuple4 := ⟨a.x.neg, a.y.neg, a.z.neg, a.w.neg⟩

/-- `impl Mul<f64> for Tuple4`: scale every component. -/
def Tuple4.mulScalar (a : Tuple4) (s : F64) : Tuple4 :=
  ⟨a.x.mul s, a.y.mul s, a.z.mul s, a.w.mul s⟩

/-- `impl Div<f64> for Tuple4`: divide every component. -/
def Tuple4.divScalar (a : Tuple4) (s : F64) : Tuple4 :=
  ⟨a.x.div s, a.y.div s, a.z.div s, a.w.div s⟩

/-- `impl PartialEq for Tuple4`: tolerance equality on all four components. -/
def Tuple4.eq (a b : Tuple4) : Bool :=
  equal a.x b.x && equal a.y b.y && equal a.z b.z && equal a.w b.w

/-- `Vector3` from `math.rs`: a newtype over `Tuple4`. -/
structure Vector3 where
  toTuple : Tuple4
deriving DecidableEq

/-- `Vector3::new`: the tuple `(x, y, z, 0.0)`. -/
def Vector3.new (x y z : F64) : Vector3 := ⟨⟨x, y, z, F64.fin 0⟩⟩

/-- `Vector3::x`. -/
def Vector3.x (v : Vector3) : F64 := v.toTuple.x

/-- `Vector3::y`. -/
def Vector3.y (v : Vector3) : F64 := v.toTuple.y

/-- `Vector3::z`. -/
def Vector3.z (v : Vector3) : F64 := v.toTuple.z

/-- `impl Add for Vector3`. -/
def Vector3.add (a b : Vector3) : Vector3 := ⟨a.toTuple.add b.toTuple⟩

/-- `impl Sub for Vector3`. -/
def Vector3.sub (a b : Vector3) : Vector3 := ⟨a.toTuple.sub b.toTuple⟩

/-- `impl Neg for Vector3`. -/
def Vector3.neg (a : Vector3) : Vector3 := ⟨a.toTuple.neg⟩

/-- `impl Mul<f64> for Vector3`. -/
def Vector3.mulScalar (a : Vector3) (s : F64) : Vector3 := ⟨a.toTuple.mulScalar s⟩

/-- `impl Div<f64> for Vector3`. -/
def Vector3.divScalar (a : Vector3) (s : F64) : Vector3 := ⟨a.toTuple.divScalar s⟩

/-- The derived `PartialEq` of `Vector3` delegates to the tolerance
equality of the underlying tuples. -/
def Vector3.eq (a b : Vector3) : Bool := a.toTuple.eq b.toTuple

/-- `f64::powi(2)` as used in `mag`: the exact square `x * x`. -/
def F64.powi2 (a : F64) : F64 := a.mul a

/-- `Vector3::mag`, parametric in the function `sqrtF` modelling
`f64::sqrt` (the value model carries no square root of its own):
`(x.powi(2) + y.powi(2) + z.powi(2) + w.powi(2)).sqrt()`. -/
def Vector3.mag (sqrtF : F64 → F64) (v : Vector3) : F64 :=
  sqrtF ((((v.toTuple.x.powi2).add (v.toTuple.y.powi2)).add
    (v.toTuple.z.powi2)).add (v.toTuple.w.powi2))

/-- `Vector3::norm`: every tuple component divided by the magnitude. -/
def Vector3.norm (sqrtF : F64 → F64) (v : Vector3) : Vector3 :=
  let mv := v.mag sqrtF
  ⟨⟨v.toTuple.x.div mv, v.toTuple.y.div mv, v.toTuple.z.div mv,
    v.toTuple.w.div mv⟩⟩

/-- `Vector3::dot`: the sum of the four pairwise component products. -/
def Vector3.dot (a b : Vector3) : F64 :=
  (((a.toTuple.x.mul b.toTuple.x).add (a.toTuple.y.mul b.toTuple.y)).add
    (a.toTuple.z.mul b.toTuple.z)).add (a.toTuple.w.mul b.toTuple.w)

/-- `Vector3::cross`: the 3-D cross product of the `x`, `y`, `z` components,
repackaged through `Vector3::new`. -/
def Vector3.cross (a b : Vector3) : Vector3 :=
  Vector3.new
    ((a.y.mul b.z).sub (a.z.mul b.y))
    ((a.z.mul b.x).sub (a.x.mul b.z))
    ((a.x.mul b.y).sub (a.y.mul b.x))

/-- `Point3` from `math.rs`: a newtype over `Tuple4`. -/
structure Point3 where
  toTuple : Tuple4
deriving DecidableEq

/-- `Point3::new`: the tuple `(x, y, z, 1.0)`. -/
def Point3.new (x y z : F64) : Point3 := ⟨⟨x, y, z, F64.fin 1⟩⟩

/-- `impl Add<Vector3> for Point3`. -/
def Point3.addVector (p : Point3) (v : Vector3) : Point3 :=
  ⟨p.toTuple.add v.toTuple⟩

/-- `impl Sub<Point3> for Point3`: the displacement vector. -/
def Point3.subPoint (p q : Point3) : Vector3 := ⟨p.toTuple.sub q.toTuple⟩

/-- `impl Sub<Vector3> for Point3`. -/
def Point3.subVector (p : Point3) (v : Vector3) : Point3 :=
  ⟨p.toTuple.sub v.toTuple⟩

end Sray

namespace SrayExact

/-!
Exact-arithmetic rendition of the vector algebra of `math.rs` over an
arbitrary linearly ordered field `K`, with the square root passed in as an
explicit function.  This is the abstraction in which the claim about the
magnitude of a normalized vector lives: its truth needs the defining
property of the real square root, which no computable value model has.
-/

/-- `Tuple4` from `math.rs`, over the carrier `K`. -/
structure Tuple4 (K : Type) where
  x : K
  y : K
  z : K
  w : K

/-- `Vector3` from `math.rs`, over the carrier `K`. -/
structure Vector3 (K : Type) where
  toTuple : Tuple4 K

/-- `Vector3::new`: the tuple `(x, y, z, 0)`. -/
def Vector3.new {K : Type} [LinearOrderedField K] (x y z : K) : Vector3 K :=
  ⟨⟨x, y, z, 0⟩⟩

/-- `Vector3::mag` with the square-root function `sqrt` passed explicitly:
`(x.powi(2) + y.powi(2) + z.powi(2) + w.powi(2)).sqrt()`. -/
def Vector3.mag {K : Type} [LinearOrderedField K] (sqrt : K → K)
    (v : Vector3 K) : K :=
  sqrt (v.toTuple.x ^ 2 + v.toTuple.y ^ 2 + v.toTuple.z ^ 2 + v.toTuple.w ^ 2)

/-- `Vector3::norm`: every tuple component divided by the magnitude. -/
def Vector3.norm {K : Type} [LinearOrderedField K] (sqrt : K → K)
    (v : Vector3 K) : Vector3 K :=
  let mv := v.mag sqrt
  ⟨⟨v.toTuple.x / mv, v.toTuple.y / mv, v.toTuple.z / mv, v.toTuple.w / mv⟩⟩

/-- `equal` from `misc.rs` in exact arithmetic: `|lhs - rhs| < 1e-10`. -/
def equal {K : Type} [LinearOrderedField K] (lhs rhs : K) : Prop :=
  |lhs - rhs| < 1 / 10 ^ 10

end SrayExact

section
attribute [local semireducible] Rat.mul Rat.add Rat.sub Rat.inv

namespace Sray

/-- `Canvas::new` always establishes the buffer-length invariant. -/
theorem new_WF (w h : ℕ) : (Canvas.new w h).WF := by
  simp [Canvas.WF, Canvas.new]

/-- In-bounds coordinates index inside a well-formed buffer. -/
theorem index_lt_length {c : Canvas} (h : c.WF) {x y : ℕ}
    (hx : x < c.width) (hy : y < c.height) :
    x + y * c.width < c.canvas.length := by
  rw [h]
  calc x + y * c.width < c.width + y * c.width := by omega
    _ = (y + 1) * c.width := by ring
    _ ≤ c.height * c.width := Nat.mul_le_mul_right _ (by omega)
    _ = c.width * c.height := Nat.mul_comm _ _

/-- The buffer index `x + y * width` determines `(x, y)` when `x` is within
a row. -/
theorem index_inj {w x x2 y y2 : ℕ} (hx : x < w) (hx2 : x2 < w)
    (h : x2 + y2 * w = x + y * w) : x2 = x ∧ y2 = y := by
  have hw : 0 < w := by omega
  have e1 : (x2 + y2 * w) % w = x2 := by
    rw [Nat.add_mul_mod_self_right]; exact Nat.mod_eq_of_lt hx2
  have e2 : (x + y * w) % w = x := by
    rw [Nat.add_mul_mod_self_right]; exact Nat.mod_eq_of_lt hx
  rw [h] at e1
  have h1 : x2 = x := by omega
  subst h1
  have h2 : y2 * w = y * w := by omega
  exact ⟨rfl, Nat.eq_of_mul_eq_mul_right hw h2⟩

set_option maxRecDepth 8000 in
/-- C1: on the 5×3 canvas with exactly the three specified pixel writes,
`to_ppm` returns exactly the literal PPM text of §6 of the spec. -/
theorem to_ppm_5x3_scenario :
    ((((Canvas.new 5 3).write_pixel 0 0
        (Color.new (F64.fin 1) (F64.fin 0) (F64.fin 0))).write_pixel 2 1
        (Color.new (F64.fin 0) (F64.fin (1/2)) (F64.fin 1))).write_pixel 4 2
        (Color.new (F64.fin 0) (F64.fin 0) (F64.fin 1))).to_ppm =
      "P3\n5 3\n255\n255 0 0 0 0 0 0 0 0 0 0 0 0 0 0\n0 0 0 0 0 0 0 128 255 0 0 0 0 0 0\n0 0 0 0 0 0 0 0 0 0 0 0 0 0 255\n" := by
  decide

/-- C3: on a well-formed canvas, `pixel_at` returns the color stored at
buffer index `x + y * width` when `x < width` and `y < height` (and such a
color exists, so no panic occurs), and returns `none` otherwise. -/
theorem pixel_at_contract (c : Canvas) (h : c.WF) (x y : ℕ) :
    (x < c.width → y < c.height →
      c.pixel_at x y = c.canvas[x + y * c.width]? ∧
      ∃ col, c.canvas[x + y * c.width]? = some col) ∧
    (c.width ≤ x ∨ c.height ≤ y → c.pixel_at x y = none) := by
  constructor
  · intro hx hy
    have hidx : x + y * c.width < c.canvas.length := index_lt_length h hx hy
    constructor
    · unfold Canvas.pixel_at
      rw [if_pos ⟨hx, hy⟩]
    · exact ⟨c.canvas[x + y * c.width], List.getElem?_eq_getElem hidx⟩
  · intro h2
    unfold Canvas.pixel_at
    rw [if_neg (by omega)]

/-- Witness for C3 on the spec's 10×20 canvas, at the in-bounds coordinate
`(3, 4)` and the out-of-bounds coordinate `(10, 5)`. -/
theorem pixel_at_contract_witness :
    (Canvas.new 10 20).pixel_at 3 4 = (Canvas.new 10 20).canvas[3 + 4 * 10]? ∧
    (Canvas.new 10 20).pixel_at 10 5 = none := by
  refine ⟨((pixel_at_contract (Canvas.new 10 20) (new_WF 10 20) 3 4).1
    (by decide) (by decide)).1, ?_⟩
  exact (pixel_at_contract (Canvas.new 10 20) (new_WF 10 20) 10 5).2
    (by decide)

/-- C4: an out-of-bounds `write_pixel` returns the canvas completely
unchanged (same structure, hence same dimensions and pixels), with no error
signal. -/
theorem write_pixel_out_of_bounds (c : Canvas) (x y : ℕ) (color : Color)
    (h : c.width ≤ x ∨ c.height ≤ y) : c.write_pixel x y color = c := by
  unfold Canvas.write_pixel
  rw [if_neg (by omega)]

/-- Witness for C4: writing at `(10, 5)` on a 10×20 canvas is a no-op. -/
theorem write_pixel_out_of_bounds_witness :
    (Canvas.new 10 20).write_pixel 10 5
      (Color.new (F64.fin 1) (F64.fin 0) (F64.fin 0)) = Canvas.new 10 20 :=
  write_pixel_out_of_bounds _ 10 5 _ (by decide)

/-- C5: an in-bounds `write_pixel` makes `pixel_at` at `(x, y)` return
`some color`, leaves every other coordinate's `pixel_at` unchanged, and
keeps the dimensions. -/
theorem write_pixel_in_bounds (c : Canvas) (h : c.WF) (x y : ℕ)
    (color : Color) (hx : x < c.width) (hy : y < c.height) :
    (c.write_pixel x y color).pixel_at x y = some color ∧
    (∀ x2 y2 : ℕ, ¬(x2 = x ∧ y2 = y) →
      (c.write_pixel x y color).pixel_at x2 y2 = c.pixel_at x2 y2) ∧
    (c.write_pixel x y color).width = c.width ∧
    (c.write_pixel x y color).height = c.height := by
  have hw : c.write_pixel x y color =
      { c with canvas := c.canvas.set (x + y * c.width) color } := by
    unfold Canvas.write_pixel
    rw [if_pos ⟨hx, hy⟩]
  have hidx : x + y * c.width < c.canvas.length := index_lt_length h hx hy
  refine ⟨?_, ?_, by rw [hw], by rw [hw]⟩
  · rw [hw]
    unfold Canvas.pixel_at
    rw [if_pos ⟨hx, hy⟩]
    exact List.getElem?_set_eq_of_lt color hidx
  · intro x2 y2 hne
    rw [hw]
    unfold Canvas.pixel_at
    by_cases hb : x2 < c.width ∧ y2 < c.height
    · rw [if_pos hb, if_pos hb]
      show (c.canvas.set (x + y * c.width) color)[x2 + y2 * c.width]? =
        c.canvas[x2 + y2 * c.width]?
      refine List.getElem?_set_ne ?_
      intro heq
      exact hne (index_inj hx hb.1 heq.symm)
    · rw [if_neg hb, if_neg hb]

/-- Witness for C5: write red at `(2, 3)` on a 10×20 canvas, read it back
there, and check `(4, 7)` is untouched. -/
theorem write_pixel_in_bounds_witness :
    ((Canvas.new 10 20).write_pixel 2 3
      (Color.new (F64.fin 1) (F64.fin 0) (F64.fin 0))).pixel_at 2 3 =
        some (Color.new (F64.fin 1) (F64.fin 0) (F64.fin 0)) ∧
    ((Canvas.new 10 20).write_pixel 2 3
      (Color.new (F64.fin 1) (F64.fin 0) (F64.fin 0))).pixel_at 4 7 =
        (Canvas.new 10 20).pixel_at 4 7 := by
  have h := write_pixel_in_bounds (Canvas.new 10 20) (new_WF 10 20) 2 3
    (Color.new (F64.fin 1) (F64.fin 0) (F64.fin 0)) (by decide) (by decide)
  exact ⟨h.1, h.2.1 4 7 (by decide)⟩

/-- The code's channel conversion agrees with the spec's
ceiling-then-clamp formula on every finite channel value. -/
theorem ppmChannel_fin (q : ℚ) : ppmChannel (F64.fin q) = specChannel q := by
  simp only [ppmChannel, specChannel, F64.mul, F64.ceil, F64.toU32]
  rw [Int.floor_intCast]
  have h32 : (2 : ℕ) ^ 32 - 1 = 4294967295 := by norm_num
  rw [h32]
  split_ifs with h1
  · rw [Int.cast_lt_zero] at h1
    omega
  · rw [Int.cast_lt_zero] at h1
    omega

/-- The token positions of one pixel's triplet inside the flattened body:
pixel `i` contributes tokens `3i`, `3i+1`, `3i+2`. -/
theorem bodyInts_triplet (l : List Color) :
    ∀ (i : ℕ) (col : Color), l[i]? = some col →
      (l.flatMap fun c => [ppmChannel c.r, ppmChannel c.g, ppmChannel c.b])[3 * i]? =
          some (ppmChannel col.r) ∧
      (l.flatMap fun c => [ppmChannel c.r, ppmChannel c.g, ppmChannel c.b])[3 * i + 1]? =
          some (ppmChannel col.g) ∧
      (l.flatMap fun c => [ppmChannel c.r, ppmChannel c.g, ppmChannel c.b])[3 * i + 2]? =
          some (ppmChannel col.b) := by
  induction l with
  | nil => intro i col h; simp at h
  | cons a t ih =>
    intro i col h
    cases i with
    | zero =>
      rw [List.getElem?_cons_zero] at h
      cases h
      refine ⟨?_, ?_, ?_⟩
      · rw [show 3 * 0 = 0 from rfl]
        simp [List.flatMap_cons]
      · rw [show 3 * 0 + 1 = 0 + 1 from rfl]
        simp [List.flatMap_cons]
      · rw [show 3 * 0 + 2 = 0 + 1 + 1 from rfl]
        simp [List.flatMap_cons]
    | succ j =>
      rw [List.getElem?_cons_succ] at h
      have hih := ih j col h
      rw [List.flatMap_cons]
      refine ⟨?_, ?_, ?_⟩
      · rw [show 3 * (j + 1) = 3 * j + 1 + 1 + 1 from by ring]
        simp only [List.cons_append, List.nil_append, List.getElem?_cons_succ]
        exact hih.1
      · rw [show 3 * (j + 1) + 1 = 3 * j + 1 + 1 + 1 + 1 from by ring]
        simp only [List.cons_append, List.nil_append, List.getElem?_cons_succ]
        exact hih.2.1
      · rw [show 3 * (j + 1) + 2 = 3 * j + 2 + 1 + 1 + 1 from by ring]
        simp only [List.cons_append, List.nil_append, List.getElem?_cons_succ]
        exact hih.2.2

/-- C2: for every canvas and stored pixel, the three integers `to_ppm`
emits for that pixel (tokens `3i`, `3i+1`, `3i+2` of the body) are
`ppmChannel` of its channels, and on every finite channel value
`ppmChannel` equals the spec's formula: multiply by 255, take the ceiling,
clamp into `[0, 255]`. -/
theorem to_ppm_channel_spec (c : Canvas) (i : ℕ) (col : Color)
    (h : c.canvas[i]? = some col) :
    (c.bodyInts[3 * i]? = some (ppmChannel col.r) ∧
     c.bodyInts[3 * i + 1]? = some (ppmChannel col.g) ∧
     c.bodyInts[3 * i + 2]? = some (ppmChannel col.b)) ∧
    (∀ q : ℚ, col.r = F64.fin q → ppmChannel col.r = specChannel q) ∧
    (∀ q : ℚ, col.g = F64.fin q → ppmChannel col.g = specChannel q) ∧
    (∀ q : ℚ, col.b = F64.fin q → ppmChannel col.b = specChannel q) := by
  refine ⟨bodyInts_triplet c.canvas i col h, ?_, ?_, ?_⟩ <;>
    · intro q hq
      rw [hq]
      exact ppmChannel_fin q

/-- Witness for C2 on a 1×1 black canvas at pixel 0. -/
theorem to_ppm_channel_spec_witness :
    (Canvas.new 1 1).bodyInts[0]? = some (ppmChannel Color.BLACK.r) ∧
    ppmChannel Color.BLACK.r = specChannel 0 := by
  have h := to_ppm_channel_spec (Canvas.new 1 1) 0 Color.BLACK (by decide)
  exact ⟨by simpa using h.1.1, h.2.1 0 rfl⟩

/-- C10: `to_ppm` is total and clamped on every storable channel value:
every body token is at most 255; a `nan` channel emits 0, a negative
finite channel emits 0, `-∞` emits 0 and `+∞` emits 255 (the saturating
`f64`-to-`u32` cast runs before the clamp). -/
theorem to_ppm_saturation :
    (∀ c : Canvas, ∀ n ∈ c.bodyInts, n ≤ 255) ∧
    ppmChannel F64.nan = 0 ∧
    (∀ q : ℚ, q < 0 → ppmChannel (F64.fin q) = 0) ∧
    ppmChannel F64.ninf = 0 ∧
    ppmChannel F64.inf = 255 := by
  refine ⟨?_, by decide, ?_, by decide, by decide⟩
  · intro c n hn
    unfold Canvas.bodyInts at hn
    rw [List.mem_flatMap] at hn
    rcases hn with ⟨col, _, hn⟩
    simp only [List.mem_cons, List.not_mem_nil, or_false] at hn
    rcases hn with h | h | h <;> · rw [h]; exact min_le_left _ _
  · intro q hq
    rw [ppmChannel_fin]
    unfold specChannel
    have hceil : ⌈q * 255⌉ ≤ 0 := Int.ceil_le.mpr (by push_cast; nlinarith)
    omega

/-- Witness for C10: a negative channel emits 0, and one concrete body
token of a 1×1 canvas is within the clamp bound. -/
theorem to_ppm_saturation_witness :
    ppmChannel (F64.fin (-1)) = 0 ∧ ppmChannel Color.BLACK.r ≤ 255 := by
  constructor
  · exact to_ppm_saturation.2.2.1 (-1) (by norm_num)
  · exact to_ppm_saturation.1 (Canvas.new 1 1) _ (by decide)

/-- C6 counterexample: multiplying a vector by the scalar `nan`, or
dividing it by `0.0` — operands the API accepts — yields a `Vector3` whose
`w` component is `nan`, not `0.0`. -/
theorem vector_w_breaks :
    ((Vector3.new (F64.fin 1) (F64.fin 2) (F64.fin 3)).mulScalar
      F64.nan).toTuple.w = F64.nan ∧
    ((Vector3.new (F64.fin 1) (F64.fin 2) (F64.fin 3)).divScalar
      (F64.fin 0)).toTuple.w = F64.nan ∧
    F64.nan ≠ F64.fin 0 := by
  refine ⟨by decide, by decide, by decide⟩

/-- C6 amended: `w` stays exactly `1.0` for points and `0.0` for vectors
under the constructors and all point operations, vector addition,
subtraction, negation and the cross product; for scalar multiplication it
stays `0.0` provided the scalar is finite, for scalar division provided
the scalar is finite and non-zero, and for normalization provided the
computed magnitude is finite and non-zero.  (Multiplying by `nan` or
`±∞`, dividing by `0.0` or `nan`, or normalizing at zero magnitude can
make `w` into `nan` instead.) -/
theorem w_invariant_amended :
    (∀ x y z : F64, (Point3.new x y z).toTuple.w = F64.fin 1) ∧
    (∀ x y z : F64, (Vector3.new x y z).toTuple.w = F64.fin 0) ∧
    (∀ (p : Point3) (v : Vector3), p.toTuple.w = F64.fin 1 →
      v.toTuple.w = F64.fin 0 →
      (p.addVector v).toTuple.w = F64.fin 1 ∧
      (p.subVector v).toTuple.w = F64.fin 1) ∧
    (∀ p q : Point3, p.toTuple.w = F64.fin 1 → q.toTuple.w = F64.fin 1 →
      (p.subPoint q).toTuple.w = F64.fin 0) ∧
    (∀ u v : Vector3, u.toTuple.w = F64.fin 0 → v.toTuple.w = F64.fin 0 →
      (u.add v).toTuple.w = F64.fin 0 ∧ (u.sub v).toTuple.w = F64.fin 0) ∧
    (∀ v : Vector3, v.toTuple.w = F64.fin 0 →
      (v.neg).toTuple.w = F64.fin 0) ∧
    (∀ (v : Vector3) (q : ℚ), v.toTuple.w = F64.fin 0 →
      (v.mulScalar (F64.fin q)).toTuple.w = F64.fin 0) ∧
    (∀ (v : Vector3) (q : ℚ), q ≠ 0 → v.toTuple.w = F64.fin 0 →
      (v.divScalar (F64.fin q)).toTuple.w = F64.fin 0) ∧
    (∀ (sqrtF : F64 → F64) (v : Vector3) (m : ℚ), m ≠ 0 →
      v.toTuple.w = F64.fin 0 → v.mag sqrtF = F64.fin m →
      (v.norm sqrtF).toTuple.w = F64.fin 0) ∧
    (∀ u v : Vector3, (u.cross v).toTuple.w = F64.fin 0) := by
  refine ⟨fun x y z => rfl, fun x y z => rfl, ?_, ?_, ?_, ?_, ?_, ?_, ?_,
    fun u v => rfl⟩
  · intro p v hp hv
    constructor <;>
      simp [Point3.addVector, Point3.subVector, Tuple4.add, Tuple4.sub,
        F64.add, F64.sub, F64.neg, hp, hv]
  · intro p q hp hq
    simp [Point3.subPoint, Tuple4.sub, F64.sub, F64.add, F64.neg, hp, hq]
  · intro u v hu hv
    constructor <;>
      simp [Vector3.add, Vector3.sub, Tuple4.add, Tuple4.sub, F64.add,
        F64.sub, F64.neg, hu, hv]
  · intro v hv
    simp [Vector3.neg, Tuple4.neg, F64.neg, hv]
  · intro v q hv
    simp [Vector3.mulScalar, Tuple4.mulScalar, F64.mul, hv]
  · intro v q hq hv
    simp [Vector3.divScalar, Tuple4.divScalar, F64.div, hv, hq]
  · intro sqrtF v m hm hv hmag
    simp [Vector3.norm, hmag, F64.div, hv, hm]

/-- Witness for C6's amended theorem: a concrete point translation, a
division by the finite non-zero scalar 2, and a normalization whose
magnitude computes to the finite non-zero value 5, all keep `w` correct. -/
theorem w_invariant_amended_witness :
    ((Point3.new (F64.fin 1) (F64.fin 2) (F64.fin 3)).addVector
      (Vector3.new (F64.fin 4) (F64.fin 5) (F64.fin 6))).toTuple.w =
        F64.fin 1 ∧
    ((Vector3.new (F64.fin 1) (F64.fin 2) (F64.fin 3)).divScalar
      (F64.fin 2)).toTuple.w = F64.fin 0 ∧
    ((Vector3.new (F64.fin 3) (F64.fin 4) (F64.fin 0)).norm
      (fun _ => F64.fin 5)).toTuple.w = F64.fin 0 := by
  refine ⟨(w_invariant_amended.2.2.1 _ _ (by decide) (by decide)).1,
    w_invariant_amended.2.2.2.2.2.2.2.1 _ 2 (by norm_num) (by decide),
    w_invariant_amended.2.2.2.2.2.2.2.2.1 (fun _ => F64.fin 5) _ 5
      (by norm_num) (by decide) rfl⟩

/-- C7 counterexample: with a `nan` component — which the constructors
accept and which the spec says must propagate — the tolerance equality
`u.cross(&v) == -(v.cross(&u))` evaluates to `false`, because `nan` is not
within tolerance of `nan`. -/
theorem cross_antisymmetry_fails :
    Vector3.eq
      ((Vector3.new (F64.fin 0) F64.nan (F64.fin 0)).cross
        (Vector3.new (F64.fin 0) (F64.fin 0) (F64.fin 0)))
      (((Vector3.new (F64.fin 0) (F64.fin 0) (F64.fin 0)).cross
        (Vector3.new (F64.fin 0) F64.nan (F64.fin 0))).neg) = false := by
  decide

/-- C7 amended: for vectors whose components are all finite,
`u.cross(&v) == -(v.cross(&u))` holds, where `==` is the tolerance-based
equality over all four tuple components. -/
theorem cross_antisymmetry_fin (a1 a2 a3 b1 b2 b3 : ℚ) :
    Vector3.eq
      ((Vector3.new (F64.fin a1) (F64.fin a2) (F64.fin a3)).cross
        (Vector3.new (F64.fin b1) (F64.fin b2) (F64.fin b3)))
      (((Vector3.new (F64.fin b1) (F64.fin b2) (F64.fin b3)).cross
        (Vector3.new (F64.fin a1) (F64.fin a2) (F64.fin a3))).neg) = true := by
  have habs : ∀ r : ℚ, r = 0 → |r| < 1 / 10 ^ 10 := by
    intro r hr
    rw [hr]
    norm_num
  simp only [Vector3.eq, Vector3.cross, Vector3.new, Vector3.neg, Vector3.x,
    Vector3.y, Vector3.z, Tuple4.eq, Tuple4.neg, equal, EPSILON, F64.mul,
    F64.sub, F64.add, F64.neg, F64.abs, F64.lt, Bool.and_eq_true,
    decide_eq_true_eq]
  refine ⟨⟨⟨?_, ?_⟩, ?_⟩, ?_⟩ <;> exact habs _ (by ring)

/-- Helper: adding finite zero is the identity on every `f64` value. -/
theorem add_fin_zero (a : F64) : a.add (F64.fin 0) = a := by
  cases a <;> simp [F64.add]

/-- C9: when `w = 0`, the four-component magnitude and dot product of
`math.rs` agree exactly with the three-component computations: the `w`
terms contribute nothing. -/
theorem mag_dot_ignore_w :
    (∀ (sqrtF : F64 → F64) (v : Vector3), v.toTuple.w = F64.fin 0 →
      v.mag sqrtF =
        sqrtF (((v.toTuple.x.powi2).add (v.toTuple.y.powi2)).add
          (v.toTuple.z.powi2))) ∧
    (∀ u v : Vector3, u.toTuple.w = F64.fin 0 → v.toTuple.w = F64.fin 0 →
      u.dot v =
        ((u.toTuple.x.mul v.toTuple.x).add (u.toTuple.y.mul v.toTuple.y)).add
          (u.toTuple.z.mul v.toTuple.z)) := by
  constructor
  · intro sqrtF v hw
    unfold Vector3.mag
    rw [hw]
    rw [show (F64.fin 0).powi2 = F64.fin 0 from by simp [F64.powi2, F64.mul]]
    rw [add_fin_zero]
  · intro u v hu hv
    unfold Vector3.dot
    rw [hu, hv]
    rw [show (F64.fin 0).mul (F64.fin 0) = F64.fin 0 from by simp [F64.mul]]
    rw [add_fin_zero]

/-- Witness for C9 at the vector (1, 2, 3) (with the identity standing in
for the square-root parameter, which both sides share). -/
theorem mag_dot_ignore_w_witness :
    (Vector3.new (F64.fin 1) (F64.fin 2) (F64.fin 3)).mag (fun a => a) =
      ((((Vector3.new (F64.fin 1) (F64.fin 2) (F64.fin 3)).toTuple.x.powi2).add
        ((Vector3.new (F64.fin 1) (F64.fin 2) (F64.fin 3)).toTuple.y.powi2)).add
        ((Vector3.new (F64.fin 1) (F64.fin 2) (F64.fin 3)).toTuple.z.powi2)) ∧
    (Vector3.new (F64.fin 1) (F64.fin 2) (F64.fin 3)).dot
      (Vector3.new (F64.fin 4) (F64.fin 5) (F64.fin 6)) =
      (((Vector3.new (F64.fin 1) (F64.fin 2) (F64.fin 3)).toTuple.x.mul
          (Vector3.new (F64.fin 4) (F64.fin 5) (F64.fin 6)).toTuple.x).add
        ((Vector3.new (F64.fin 1) (F64.fin 2) (F64.fin 3)).toTuple.y.mul
          (Vector3.new (F64.fin 4) (F64.fin 5) (F64.fin 6)).toTuple.y)).add
        ((Vector3.new (F64.fin 1) (F64.fin 2) (F64.fin 3)).toTuple.z.mul
          (Vector3.new (F64.fin 4) (F64.fin 5) (F64.fin 6)).toTuple.z) :=
  ⟨mag_dot_ignore_w.1 (fun a => a) _ rfl, mag_dot_ignore_w.2 _ _ rfl rfl⟩

end Sray

namespace SrayExact

/-- C8: over any carrier field with a genuine square-root function, a
vector of non-zero magnitude normalizes to a vector whose magnitude is
within the `1e-10` tolerance of 1 (in exact arithmetic it is exactly 1). -/
theorem norm_mag_one {K : Type} [LinearOrderedField K] (sqrt : K → K)
    (hsqrt : ∀ a : K, 0 ≤ a → 0 ≤ sqrt a ∧ sqrt a ^ 2 = a)
    (v : Vector3 K) (h : v.mag sqrt ≠ 0) :
    equal ((v.norm sqrt).mag sqrt) 1 := by
  rcases v with ⟨⟨x, y, z, w⟩⟩
  have hS : (0 : K) ≤ x ^ 2 + y ^ 2 + z ^ 2 + w ^ 2 := by positivity
  have hm := hsqrt _ hS
  have hmne : sqrt (x ^ 2 + y ^ 2 + z ^ 2 + w ^ 2) ≠ 0 := h
  have hmpos : 0 < sqrt (x ^ 2 + y ^ 2 + z ^ 2 + w ^ 2) :=
    lt_of_le_of_ne hm.1 (Ne.symm hmne)
  have hnorm : (Vector3.norm sqrt ⟨⟨x, y, z, w⟩⟩).mag sqrt = sqrt 1 := by
    show sqrt ((x / sqrt (x ^ 2 + y ^ 2 + z ^ 2 + w ^ 2)) ^ 2 +
      (y / sqrt (x ^ 2 + y ^ 2 + z ^ 2 + w ^ 2)) ^ 2 +
      (z / sqrt (x ^ 2 + y ^ 2 + z ^ 2 + w ^ 2)) ^ 2 +
      (w / sqrt (x ^ 2 + y ^ 2 + z ^ 2 + w ^ 2)) ^ 2) = sqrt 1
    congr 1
    field_simp
    linarith [hm.2]
  have h1 : sqrt 1 = 1 := by
    have h10 := hsqrt 1 zero_le_one
    have hf : (sqrt 1 - 1) * (sqrt 1 + 1) = 0 := by linear_combination h10.2
    rcases mul_eq_zero.mp hf with hc | hc
    · linarith
    · linarith [h10.1]
  rw [hnorm, h1]
  show |(1 : K) - 1| < 1 / 10 ^ 10
  simp

/-- Witness for C8 at the real vector (3, 4, 0) with the real square root. -/
theorem norm_mag_one_witness :
    equal ((Vector3.norm Real.sqrt (Vector3.new (3 : ℝ) 4 0)).mag Real.sqrt)
      1 := by
  refine norm_mag_one Real.sqrt
    (fun a ha => ⟨Real.sqrt_nonneg a, Real.sq_sqrt ha⟩) _ ?_
  show Real.sqrt ((3 : ℝ) ^ 2 + 4 ^ 2 + 0 ^ 2 + 0 ^ 2) ≠ 0
  rw [show ((3 : ℝ) ^ 2 + 4 ^ 2 + 0 ^ 2 + 0 ^ 2) = 25 from by norm_num]
  rw [Real.sqrt_ne_zero']
  norm_num

end SrayExact

end
